import Mathlib

/-!
Shallow embedding of the tic-tac-toe game engine (Rust sources under
`src/`): `lib/player.rs`, `lib/coordinates.rs`, `lib/game.rs`,
`lib/board.rs` and the pure transition logic of `main.rs`.

Modelling conventions:
* Rust `i8` values are modelled as `Int`; none of the properties below
  exercises arithmetic outside the `i8` range.
* The `HashMap<Coordinates, Player>` is modelled as an association list
  `List (Coordinates × Player)`; `insert` guards against duplicate keys
  exactly as the Rust code does, so lookup and length agree with the map.
* A Rust panic is modelled as `Option.none`: `itertools::zip_eq` panics
  when its two iterators have different lengths, and `slice::windows(n)`
  panics when `n = 0`, so the embedded `zipEq` and `windows` return an
  `Option`, and `affected_rows` / `is_winning_move` thread both.
* Rust `Result<A, String>` is `Except String A`.
-/

namespace TicTacToe

/-- Rust `Player` from `src/lib/player.rs`: exactly two identities. -/
inductive Player where
  | X : Player
  | O : Player
deriving DecidableEq, Repr

/-- Rust `Player::first` from `src/lib/player.rs`. -/
def Player.first : Player := Player.X

/-- Rust `Player::next` from `src/lib/player.rs`. -/
def Player.next : Player → Player
  | Player.O => Player.X
  | Player.X => Player.O

/-- Rust `Coordinates` from `src/lib/coordinates.rs` (fields are Rust `i8`). -/
structure Coordinates where
  x : Int
  y : Int
deriving DecidableEq, Repr

/-- Rust `Game` from `src/lib/game.rs`: bounds and the winning run length. -/
structure Game where
  min_x : Int
  max_x : Int
  min_y : Int
  max_y : Int
  goal : Int

/-- Rust `Game::TIC_TAC_TOE` preset. -/
def Game.TIC_TAC_TOE : Game := ⟨-1, 1, -1, 1, 3⟩

/-- Rust `Game::GOMOKU` preset. -/
def Game.GOMOKU : Game := ⟨-7, 7, -7, 7, 5⟩

/-- Rust `Board` from `src/lib/board.rs`: the occupied-cell mapping plus the
four bound fields copied from the `Game`. -/
structure Board where
  hash : List (Coordinates × Player)
  min_x : Int
  max_x : Int
  min_y : Int
  max_y : Int
deriving DecidableEq, Repr

/-- Rust `Board::on_board` from `src/lib/board.rs`. -/
def Board.on_board (b : Board) (c : Coordinates) : Bool :=
  decide (b.min_x ≤ c.x) && decide (c.x ≤ b.max_x) &&
    decide (b.min_y ≤ c.y) && decide (c.y ≤ b.max_y)

/-- Rust `Board::new` from `src/lib/board.rs`: empty mapping, bounds copied. -/
def Board.new (game : Game) : Board :=
  ⟨[], game.min_x, game.max_x, game.min_y, game.max_y⟩

/-- Rust `HashMap::contains_key`, specialised to the association-list model. -/
def Board.contains_key (b : Board) (c : Coordinates) : Bool :=
  b.hash.any (fun kv => decide (kv.1 = c))

/-- Rust `HashMap::get`, specialised to the association-list model. -/
def Board.get (b : Board) (c : Coordinates) : Option Player :=
  (b.hash.find? (fun kv => decide (kv.1 = c))).map Prod.snd

/-- Rust `Board::insert` from `src/lib/board.rs`: bounds check, occupancy
check, then a new board extending the mapping with `c ↦ p`. -/
def Board.insert (b : Board) (c : Coordinates) (p : Player) :
    Except String Board :=
  if b.on_board c = false then Except.error "OutOfBounds"
  else if b.contains_key c then Except.error "AlreadyDefined"
  else Except.ok { b with hash := (c, p) :: b.hash }

/-- Rust `Board::is_draw` from `src/lib/board.rs`:
`(min..=max).len()` for an `i8` range is `(max + 1 - min).toNat`. -/
def Board.is_draw (b : Board) : Bool :=
  decide ((b.max_x + 1 - b.min_x).toNat * (b.max_y + 1 - b.min_y).toNat
    ≤ b.hash.length)

/-- Rust inclusive range `lo..=hi` as a list (empty when `hi < lo`). -/
def rangeIncl (lo hi : Int) : List Int :=
  (List.range (hi + 1 - lo).toNat).map (fun (n : Nat) => lo + (n : Int))

/-- Rust `itertools::zip_eq`: pairs two lists and panics — modelled as
`none` — when they have different lengths. -/
def zipEq {α β : Type} : List α → List β → Option (List (α × β))
  | [], [] => some []
  | a :: as, b :: bs => (zipEq as bs).map (fun t => (a, b) :: t)
  | _, _ => none

/-- Rust `itertools::unique` helper: keeps the first occurrence of each
element, remembering the elements already emitted. -/
def uniqueAux {α : Type} [DecidableEq α] (seen : List α) :
    List α → List α
  | [] => []
  | a :: as =>
    if a ∈ seen then uniqueAux seen as
    else a :: uniqueAux (a :: seen) as

/-- Rust `itertools::unique`: deduplication keeping first occurrences. -/
def uniqueList {α : Type} [DecidableEq α] (l : List α) : List α :=
  uniqueAux [] l

/-- The Rust local `x_size = self.max_x - self.min_x`. -/
def Board.x_size (b : Board) : Int := b.max_x - b.min_x

/-- The Rust local `y_size = self.max_y - self.min_y`. -/
def Board.y_size (b : Board) : Int := b.max_y - b.min_y

/-- The Rust local `xs = -x_size..=x_size`. -/
def Board.xs (b : Board) : List Int := rangeIncl (-b.x_size) b.x_size

/-- The Rust local `ys = -y_size..=y_size`. -/
def Board.ys (b : Board) : List Int := rangeIncl (-b.y_size) b.y_size

/-- The `vec![...]` of four raw candidate rows in
`Board::affected_rows`: the horizontal and vertical offset rows
recentred on `c`, and the two `zip_eq` diagonals of raw offsets
(the `zip_eq` panics — `none` — when the x- and y-ranges have
different lengths, i.e. on non-square boards). -/
def Board.rawRows (b : Board) (c : Coordinates) :
    Option (List (List (Int × Int))) :=
  (zipEq b.xs b.ys).bind (fun diag1 =>
    (zipEq b.xs b.ys.reverse).map (fun diag2 =>
      [b.xs.map (fun x => (x + c.x, c.y)),
       b.ys.map (fun y => (c.x, y + c.y)),
       diag1,
       diag2]))

/-- Rust `Board::affected_rows` from `src/lib/board.rs`: each raw candidate
row is filtered to on-board cells, rows not containing `c` are dropped,
and coincident rows are deduplicated (first occurrences kept). -/
def Board.affected_rows (b : Board) (c : Coordinates) :
    Option (List (List Coordinates)) :=
  (b.rawRows c).map (fun raw =>
    uniqueList
      ((raw.map (fun row =>
        (row.map (fun q => Coordinates.mk q.1 q.2)).filter
          (fun cc => b.on_board cc))).filter
        (fun row => decide (c ∈ row))))

/-- Rust `as usize` cast of an `i8` value: non-negative values are
unchanged, negative values wrap two's complement into `2^64 + v`
(so a negative goal becomes a huge window size, not zero). -/
def i8ToUsize (v : Int) : Nat :=
  if v < 0 then (v + 18446744073709551616).toNat else v.toNat

/-- Rust `slice::windows(n)`: all contiguous sub-lists of length `n`
(empty when the list is shorter than `n`); panics — `none` — when
`n = 0`, even on an empty slice. -/
def windows {α : Type} (n : Nat) (l : List α) : Option (List (List α)) :=
  if n = 0 then none
  else some ((List.range (l.length + 1 - n)).map
    (fun i => (l.drop i).take n))

/-- Strict traversal propagating a panic (`none`) from any element:
models running a fallible per-row computation for every row. -/
def mapOrNone {α β : Type} (f : α → Option β) : List α → Option (List β)
  | [] => some []
  | a :: as => (f a).bind (fun b => (mapOrNone f as).map (fun bs => b :: bs))

/-- Rust `itertools::all_equal`: every element equal to the first. -/
def allEqual {α : Type} [DecidableEq α] : List α → Bool
  | [] => true
  | a :: as => as.all (fun b => decide (b = a))

/-- Rust `Board::is_winning_move` from `src/lib/board.rs`: over all
affected rows, all `goal as usize`-length windows containing `c`, test
that the window's occupant sequence is all-equal and contains no
`None`. The lazy Rust pipeline `flat_map(...).any(...)` is embedded as
a strict per-row traversal: the only effect is the `windows(0)` panic,
which fires on the first row processed before any window is produced,
so short-circuiting cannot preempt it, and for a non-zero size the two
evaluation orders agree. -/
def Board.is_winning_move (b : Board) (c : Coordinates) (goal : Int) :
    Option Bool :=
  (b.affected_rows c).bind (fun rows =>
    (mapOrNone (fun row =>
      (windows (i8ToUsize goal) row).map
        (fun ws => ws.filter (fun w => decide (c ∈ w)))) rows).map
      (fun wss =>
        wss.flatten.any (fun w =>
          let sequence := w.map (fun cell => b.get cell)
          allEqual sequence && !(decide (none ∈ sequence)))))

/-- Rust `State` from `src/lib/state.rs`. -/
inductive State where
  | StartGame : State
  | NextTurn : Player → Board → State
  | Won : Player → State
  | Draw : State
  | EndGame : State
deriving DecidableEq

/-- The pure transition logic of `next_turn` in `src/main.rs`: the
coordinate read from the console becomes the `input` parameter and the
retry answer (`read_input::<bool>().unwrap_or(false)`) the `retry`
parameter; `none` models a panic inside `is_winning_move`. -/
def next_turn (game : Game) (player : Player) (board : Board)
    (input : Except String Coordinates) (retry : Bool) : Option State :=
  match input.bind (fun coordinates =>
      (board.insert coordinates player).map
        (fun new_board => (new_board, coordinates))) with
  | Except.ok (new_board, coordinates) =>
    (new_board.is_winning_move coordinates game.goal).map (fun w =>
      if w then State.Won player
      else if new_board.is_draw then State.Draw
      else State.NextTurn player.next new_board)
  | Except.error _ =>
    some (if retry then State.NextTurn player board else State.EndGame)

/-- Rust `start_game` from `src/main.rs`. -/
def start_game (game : Game) : State :=
  State.NextTurn Player.first (Board.new game)

/-- Char digit test, as in the regex class `[0-9]`. -/
def isDigitChar (c : Char) : Bool := decide ('0' ≤ c) && decide (c ≤ '9')

/-- Splits a leading digit run from a character list. -/
def takeDigits : List Char → List Char × List Char
  | [] => ([], [])
  | ch :: rest =>
    if isDigitChar ch then
      let p := takeDigits rest
      (ch :: p.1, p.2)
    else ([], ch :: rest)

/-- Decimal value of a digit run. -/
def digitsVal (ds : List Char) : Nat :=
  ds.foldl (fun n ch => n * 10 + (ch.toNat - 48)) 0

/-- Consumes one `-?[0-9]+` group greedily, returning its signed value
and the unconsumed remainder (`none` when no digit follows). -/
def parseSigned (l : List Char) : Option (Int × List Char) :=
  match l with
  | '-' :: rest =>
    if (takeDigits rest).1.isEmpty then none
    else some (-(digitsVal (takeDigits rest).1 : Int), (takeDigits rest).2)
  | _ =>
    if (takeDigits l).1.isEmpty then none
    else some ((digitsVal (takeDigits l).1 : Int), (takeDigits l).2)

/-- Rust `i8::from_str` range check on an already-parsed value. -/
def i8Range (v : Int) : Bool := decide (-128 ≤ v) && decide (v ≤ 127)

/-- Rust `Coordinates::from_str` from `src/lib/coordinates.rs`: the anchored
regex `^(-?[0-9]+),(-?[0-9]+)$` followed by `parse::<i8>()` on each
group. Since `[0-9]` excludes `,`, the regex match is equivalent to
greedy maximal-munch parsing of the first group, a literal comma, and
the second group consuming the rest of the string exactly. -/
def Coordinates.from_str (s : List Char) : Except String Coordinates :=
  match parseSigned s with
  | some (x, ',' :: rest) =>
    (match parseSigned rest with
     | some (y, []) =>
       if i8Range x && i8Range y then Except.ok ⟨x, y⟩
       else Except.error "Coordinates can\x27t be parsed"
     | _ => Except.error "Coordinates can\x27t be parsed")
  | _ => Except.error "Coordinates can\x27t be parsed"

/-- Boards reachable from `Board::new` by successful inserts. -/
inductive Reachable : Board → Prop where
  | new (game : Game) : Reachable (Board.new game)
  | insert (b b' : Board) (c : Coordinates) (p : Player) :
      Reachable b → b.insert c p = Except.ok b' → Reachable b'

/-- Spec-side shape predicate for one regex group `-?[0-9]+` together
with its signed integer value: `l` is a non-empty digit run, optionally
preceded by a minus sign, and `v` is the (possibly negated) decimal
value of the digits. -/
def SignedShape (l : List Char) (v : Int) : Prop :=
  ∃ ds, ds ≠ [] ∧ (∀ ch ∈ ds, isDigitChar ch = true) ∧
    ((l = ds ∧ v = (digitsVal ds : Int)) ∨
     (l = '-' :: ds ∧ v = -(digitsVal ds : Int)))

/-- A 3×1 board (valid but non-square bounds), as in the spec's
variable-geometry discussion. -/
def wideBoard : Board := ⟨[], -1, 1, 0, 0⟩

/-- A 1×3 board (valid but non-square bounds). -/
def tallBoard : Board := ⟨[], 0, 0, -1, 1⟩

/-- A 5×3 board (valid but non-square bounds). -/
def board5x3 : Board := ⟨[], -2, 2, -1, 1⟩

/-- A tic-tac-toe board holding one X at the centre. -/
def board1 : Board := ⟨[(⟨0, 0⟩, Player.X)], -1, 1, -1, 1⟩

/-- A tic-tac-toe board with X on the whole top row (`y = -1`). -/
def board3 : Board :=
  ⟨[(⟨-1, -1⟩, Player.X), (⟨0, -1⟩, Player.X), (⟨1, -1⟩, Player.X)],
   -1, 1, -1, 1⟩

/-- A tic-tac-toe board with eight of the nine cells occupied; only
`{1,-1}` is free, and playing X there completes the top row. -/
def board8 : Board :=
  ⟨[(⟨-1, -1⟩, Player.X), (⟨0, -1⟩, Player.X), (⟨-1, 0⟩, Player.O),
    (⟨0, 0⟩, Player.O), (⟨1, 0⟩, Player.X), (⟨-1, 1⟩, Player.X),
    (⟨0, 1⟩, Player.O), (⟨1, 1⟩, Player.O)],
   -1, 1, -1, 1⟩

/-- Rust `board8` after X plays the ninth cell `{1,-1}`: full board whose
last move completed the top row. -/
def board9 : Board := ⟨(⟨1, -1⟩, Player.X) :: board8.hash, -1, 1, -1, 1⟩

/-! ### Helper lemmas about the embedded combinators -/

theorem mem_rangeIncl {lo hi a : Int} :
    a ∈ rangeIncl lo hi ↔ lo ≤ a ∧ a ≤ hi := by
  simp only [rangeIncl, List.mem_map, List.mem_range]
  constructor
  · rintro ⟨i, hlt, rfl⟩
    omega
  · rintro ⟨h1, h2⟩
    exact ⟨(a - lo).toNat, by omega, by omega⟩

theorem length_rangeIncl (lo hi : Int) :
    (rangeIncl lo hi).length = (hi + 1 - lo).toNat := by
  rw [rangeIncl, List.length_map, List.length_range]

theorem zipEq_some_of_length {α β : Type} :
    ∀ (as : List α) (bs : List β), as.length = bs.length →
      ∃ l, zipEq as bs = some l := by
  intro as
  induction as with
  | nil =>
    intro bs h
    cases bs with
    | nil => exact ⟨[], rfl⟩
    | cons b bs => simp at h
  | cons a as ih =>
    intro bs h
    cases bs with
    | nil => simp at h
    | cons b bs =>
      obtain ⟨l, hl⟩ := ih bs (by simpa using h)
      exact ⟨(a, b) :: l, by simp [zipEq, hl]⟩

theorem mem_uniqueAux {α : Type} [DecidableEq α] :
    ∀ (l seen : List α) (a : α),
      a ∈ uniqueAux seen l ↔ a ∈ l ∧ a ∉ seen := by
  intro l
  induction l with
  | nil => simp [uniqueAux]
  | cons x xs ih =>
    intro seen a
    by_cases hx : x ∈ seen
    · simp only [uniqueAux, if_pos hx, ih, List.mem_cons]
      constructor
      · rintro ⟨h1, h2⟩
        exact ⟨Or.inr h1, h2⟩
      · rintro ⟨h1 | h1, h2⟩
        · exact absurd hx (h1 ▸ h2)
        · exact ⟨h1, h2⟩
    · simp only [uniqueAux, if_neg hx, List.mem_cons, ih]
      constructor
      · rintro (rfl | ⟨h1, h2⟩)
        · exact ⟨Or.inl rfl, hx⟩
        · exact ⟨Or.inr h1, fun hm => h2 (Or.inr hm)⟩
      · rintro ⟨rfl | h1, h2⟩
        · exact Or.inl rfl
        · by_cases hax : a = x
          · exact Or.inl hax
          · exact Or.inr ⟨h1, fun hm => hm.elim hax h2⟩

theorem mem_uniqueList {α : Type} [DecidableEq α] {l : List α} {a : α} :
    a ∈ uniqueList l ↔ a ∈ l := by
  simp [uniqueList, mem_uniqueAux]

theorem nodup_uniqueAux {α : Type} [DecidableEq α] :
    ∀ (l seen : List α), (uniqueAux seen l).Nodup := by
  intro l
  induction l with
  | nil => simp [uniqueAux]
  | cons x xs ih =>
    intro seen
    by_cases hx : x ∈ seen
    · simpa [uniqueAux, if_pos hx] using ih seen
    · simp only [uniqueAux, if_neg hx, List.nodup_cons]
      refine ⟨fun hm => ?_, ih (x :: seen)⟩
      exact ((mem_uniqueAux xs (x :: seen) x).mp hm).2
        (List.mem_cons.mpr (Or.inl rfl))

theorem nodup_uniqueList {α : Type} [DecidableEq α] (l : List α) :
    (uniqueList l).Nodup :=
  nodup_uniqueAux l []

theorem length_uniqueAux_le {α : Type} [DecidableEq α] :
    ∀ (l seen : List α), (uniqueAux seen l).length ≤ l.length := by
  intro l
  induction l with
  | nil => simp [uniqueAux]
  | cons x xs ih =>
    intro seen
    by_cases hx : x ∈ seen
    · simp only [uniqueAux, if_pos hx]
      exact Nat.le_succ_of_le (ih seen)
    · simpa [uniqueAux, if_neg hx] using ih (x :: seen)

theorem length_uniqueList_le {α : Type} [DecidableEq α] (l : List α) :
    (uniqueList l).length ≤ l.length :=
  length_uniqueAux_le l []

theorem windows_some {α : Type} {n : Nat} (hn : n ≠ 0) (l : List α) :
    windows n l = some ((List.range (l.length + 1 - n)).map
      (fun i => (l.drop i).take n)) := by
  unfold windows
  rw [if_neg hn]

theorem mem_windowsList {α : Type} {n : Nat} {l w : List α} :
    w ∈ (List.range (l.length + 1 - n)).map (fun i => (l.drop i).take n)
      ↔ ∃ i, i + n ≤ l.length ∧ w = (l.drop i).take n := by
  simp only [List.mem_map, List.mem_range]
  constructor
  · rintro ⟨i, hi, rfl⟩
    exact ⟨i, by omega, rfl⟩
  · rintro ⟨i, hi, rfl⟩
    exact ⟨i, by omega, rfl⟩

theorem mapOrNone_eq_some_of_all {α β : Type} (f : α → Option β)
    (g : α → β) (hf : ∀ a, f a = some (g a)) :
    ∀ l : List α, mapOrNone f l = some (l.map g) := by
  intro l
  induction l with
  | nil => rfl
  | cons a as ih => simp [mapOrNone, hf a, ih]

theorem on_board_iff {b : Board} {c : Coordinates} :
    b.on_board c = true ↔
      b.min_x ≤ c.x ∧ c.x ≤ b.max_x ∧ b.min_y ≤ c.y ∧ c.y ≤ b.max_y := by
  simp [Board.on_board, and_assoc]

theorem winning_check_iff (b : Board) (w : List Coordinates)
    (hne : w ≠ []) :
    (allEqual (w.map b.get) && !(decide (none ∈ w.map b.get))) = true ↔
      ∃ p, ∀ cell ∈ w, b.get cell = some p := by
  cases w with
  | nil => exact absurd rfl hne
  | cons c0 w' =>
    constructor
    · intro h
      rw [Bool.and_eq_true] at h
      obtain ⟨hall, hnone⟩ := h
      rw [Bool.not_eq_true', decide_eq_false_iff_not] at hnone
      have h0 : b.get c0 ≠ none := fun hg => hnone (by simp [hg])
      obtain ⟨p0, hp0⟩ := Option.ne_none_iff_exists'.mp h0
      refine ⟨p0, fun cell hcell => ?_⟩
      rcases List.mem_cons.mp hcell with rfl | hcell'
      · exact hp0
      · have hall' : ∀ x ∈ w', b.get x = b.get c0 := by
          simpa [allEqual] using hall
        rw [hall' cell hcell', hp0]
    · rintro ⟨p, hp⟩
      rw [Bool.and_eq_true]
      refine ⟨?_, ?_⟩
      · simp only [List.map_cons, allEqual, List.all_eq_true]
        intro x hx
        obtain ⟨cell, hcell, rfl⟩ := List.mem_map.mp hx
        rw [decide_eq_true_eq,
          hp cell (List.mem_cons.mpr (Or.inr hcell)),
          hp c0 (List.mem_cons.mpr (Or.inl rfl))]
      · rw [Bool.not_eq_true', decide_eq_false_iff_not]
        intro hmem
        obtain ⟨cell, hcell, heq⟩ := List.mem_map.mp hmem
        rw [hp cell hcell] at heq
        exact Option.noConfusion heq

theorem rawRows_eq_some {b : Board} {c : Coordinates}
    {raw : List (List (Int × Int))} (h : b.rawRows c = some raw) :
    ∃ d1 d2, zipEq b.xs b.ys = some d1 ∧
      zipEq b.xs b.ys.reverse = some d2 ∧
      raw = [b.xs.map (fun x => (x + c.x, c.y)),
             b.ys.map (fun y => (c.x, y + c.y)), d1, d2] := by
  unfold Board.rawRows at h
  cases h1 : zipEq b.xs b.ys with
  | none => simp [h1] at h
  | some d1 =>
    cases h2 : zipEq b.xs b.ys.reverse with
    | none => simp [h1, h2] at h
    | some d2 =>
      simp only [h1, h2, Option.some_bind, Option.map_some',
        Option.some_inj] at h
      exact ⟨d1, d2, rfl, rfl, h.symm⟩

theorem rawRows_isSome (b : Board) (c : Coordinates)
    (h : b.x_size = b.y_size) : ∃ raw, b.rawRows c = some raw := by
  have hlen : b.xs.length = b.ys.length := by
    rw [Board.xs, Board.ys, length_rangeIncl, length_rangeIncl, h]
  obtain ⟨d1, hd1⟩ := zipEq_some_of_length _ _ hlen
  obtain ⟨d2, hd2⟩ := zipEq_some_of_length b.xs b.ys.reverse
    (by rw [List.length_reverse]; exact hlen)
  refine ⟨[b.xs.map (fun x => (x + c.x, c.y)),
           b.ys.map (fun y => (c.x, y + c.y)), d1, d2], ?_⟩
  unfold Board.rawRows
  rw [hd1, hd2]
  rfl

theorem affected_rows_eq_some {b : Board} {c : Coordinates}
    {rows : List (List Coordinates)} (h : b.affected_rows c = some rows) :
    ∃ raw, b.rawRows c = some raw ∧
      rows = uniqueList ((raw.map (fun row =>
        (row.map (fun q => Coordinates.mk q.1 q.2)).filter
          (fun cc => b.on_board cc))).filter
        (fun row => decide (c ∈ row))) := by
  unfold Board.affected_rows at h
  cases h1 : b.rawRows c with
  | none => simp [h1] at h
  | some raw =>
    simp only [h1, Option.map_some', Option.some_inj] at h
    exact ⟨raw, rfl, h.symm⟩

theorem affected_rows_of_rawRows {b : Board} {c : Coordinates}
    {raw : List (List (Int × Int))} (h : b.rawRows c = some raw) :
    b.affected_rows c = some (uniqueList ((raw.map (fun row =>
      (row.map (fun q => Coordinates.mk q.1 q.2)).filter
        (fun cc => b.on_board cc))).filter
      (fun row => decide (c ∈ row)))) := by
  unfold Board.affected_rows
  rw [h]
  rfl

theorem takeDigits_append :
    ∀ l : List Char, (takeDigits l).1 ++ (takeDigits l).2 = l := by
  intro l
  induction l with
  | nil => rfl
  | cons ch rest ih =>
    unfold takeDigits
    by_cases h : isDigitChar ch = true
    · rw [if_pos h]
      simpa using ih
    · rw [if_neg h]
      rfl

theorem takeDigits_digits :
    ∀ l : List Char, ∀ ch ∈ (takeDigits l).1, isDigitChar ch = true := by
  intro l
  induction l with
  | nil => intro ch hch; exact absurd hch (List.not_mem_nil ch)
  | cons c0 rest ih =>
    intro ch hch
    unfold takeDigits at hch
    by_cases h : isDigitChar c0 = true
    · rw [if_pos h] at hch
      rcases List.mem_cons.mp hch with rfl | hch'
      · exact h
      · exact ih ch hch'
    · rw [if_neg h] at hch
      exact absurd hch (List.not_mem_nil ch)

theorem parseSigned_sound {l : List Char} {v : Int} {r : List Char}
    (h : parseSigned l = some (v, r)) :
    ∃ ds, ds ≠ [] ∧ (∀ ch ∈ ds, isDigitChar ch = true) ∧
      ((l = ds ++ r ∧ v = (digitsVal ds : Int)) ∨
       (l = '-' :: (ds ++ r) ∧ v = -(digitsVal ds : Int))) := by
  unfold parseSigned at h
  split at h
  next rest =>
    split at h
    · exact Option.noConfusion h
    · next hne =>
      injection h with h'
      injection h' with hv hr
      refine ⟨(takeDigits rest).1, ?_, takeDigits_digits rest,
        Or.inr ⟨?_, hv.symm⟩⟩
      · intro hnil
        rw [hnil] at hne
        exact hne rfl
      · rw [← hr, takeDigits_append rest]
  next hnotminus =>
    split at h
    · exact Option.noConfusion h
    · next hne =>
      injection h with h'
      injection h' with hv hr
      refine ⟨(takeDigits l).1, ?_, takeDigits_digits l,
        Or.inl ⟨?_, hv.symm⟩⟩
      · intro hnil
        rw [hnil] at hne
        exact hne rfl
      · rw [← hr, takeDigits_append l]

theorem from_str_ok_shape {s : List Char} {x y : Int}
    (h : Coordinates.from_str s = Except.ok ⟨x, y⟩) :
    ∃ a b, SignedShape a x ∧ SignedShape b y ∧ s = a ++ ',' :: b := by
  unfold Coordinates.from_str at h
  split at h
  next _ x0 rest heq1 =>
    split at h
    next y0 heq2 =>
      split at h
      next hrange =>
        injection h with h'
        have hx : x0 = x := congrArg Coordinates.x h'
        have hy : y0 = y := congrArg Coordinates.y h'
        subst hx
        subst hy
        obtain ⟨ds1, hds1ne, hds1dig, hds1⟩ := parseSigned_sound heq1
        obtain ⟨ds2, hds2ne, hds2dig, hds2⟩ := parseSigned_sound heq2
        have h2' : SignedShape rest y0 := by
          rcases hds2 with ⟨hl2, hv2⟩ | ⟨hl2, hv2⟩
          · exact ⟨ds2, hds2ne, hds2dig,
              Or.inl ⟨by simpa using hl2, hv2⟩⟩
          · exact ⟨ds2, hds2ne, hds2dig,
              Or.inr ⟨by simpa using hl2, hv2⟩⟩
        rcases hds1 with ⟨hl1, hv1⟩ | ⟨hl1, hv1⟩
        · exact ⟨ds1, rest,
            ⟨ds1, hds1ne, hds1dig, Or.inl ⟨rfl, hv1⟩⟩, h2', hl1⟩
        · exact ⟨'-' :: ds1, rest,
            ⟨ds1, hds1ne, hds1dig, Or.inr ⟨rfl, hv1⟩⟩, h2',
            by simpa using hl1⟩
      next => exact Except.noConfusion h
    next => exact Except.noConfusion h
  next => exact Except.noConfusion h

theorem from_str_error_of_not_shape {s : List Char}
    (h : ¬ ∃ a b x y, SignedShape a x ∧ SignedShape b y ∧
      s = a ++ ',' :: b) :
    ∃ e, Coordinates.from_str s = Except.error e := by
  cases hfs : Coordinates.from_str s with
  | error e => exact ⟨e, rfl⟩
  | ok c =>
    obtain ⟨a, b, hsa, hsb, hs⟩ := from_str_ok_shape
      (show Coordinates.from_str s = Except.ok ⟨c.x, c.y⟩ from hfs)
    exact absurd ⟨a, b, c.x, c.y, hsa, hsb, hs⟩ h

/-! ### Claim theorems -/

/-- C1: for every board, every coordinate `c` on the board, and every
goal `g ≥ 1`, `is_winning_move c g` returns `true` iff some line
returned by `affected_rows c` has a contiguous window of exactly `g`
cells that contains `c` and in which every cell is occupied and all
occupants are the same player; lines shorter than `g` contribute no
windows, and windows not containing `c` are ignored. -/
theorem claim_C1_is_winning_move_iff_window
    (b : Board) (c : Coordinates) (g : Int)
    (rows : List (List Coordinates)) (hg : 1 ≤ g)
    (hc : b.on_board c = true) (hrows : b.affected_rows c = some rows) :
    b.is_winning_move c g = some true ↔
      ∃ row ∈ rows, ∃ i, i + g.toNat ≤ row.length ∧
        c ∈ (row.drop i).take g.toNat ∧
        ∃ p : Player, ∀ cell ∈ (row.drop i).take g.toNat,
          b.get cell = some p := by
  have hcast : i8ToUsize g = g.toNat := by
    unfold i8ToUsize
    rw [if_neg (by omega)]
  have hnz : g.toNat ≠ 0 := by omega
  have hper : ∀ row : List Coordinates,
      (windows (i8ToUsize g) row).map
        (fun ws => ws.filter (fun w => decide (c ∈ w))) =
      some (((List.range (row.length + 1 - g.toNat)).map
        (fun i => (row.drop i).take g.toNat)).filter
        (fun w => decide (c ∈ w))) := by
    intro row
    rw [hcast, windows_some hnz]
    rfl
  have hmap := mapOrNone_eq_some_of_all _ _ hper rows
  have hm : b.is_winning_move c g =
      some (((rows.map (fun row =>
        ((List.range (row.length + 1 - g.toNat)).map
          (fun i => (row.drop i).take g.toNat)).filter
          (fun w => decide (c ∈ w)))).flatten).any
        (fun w =>
          allEqual (w.map b.get) && !(decide (none ∈ w.map b.get)))) := by
    unfold Board.is_winning_move
    rw [hrows, Option.some_bind, hmap, Option.map_some']
  rw [hm, Option.some_inj]
  constructor
  · intro h
    obtain ⟨w, hw, hcheck⟩ := List.any_eq_true.mp h
    obtain ⟨ws, hws, hwmem⟩ := List.mem_flatten.mp hw
    obtain ⟨row, hrow, rfl⟩ := List.mem_map.mp hws
    obtain ⟨hwin, hcw⟩ := List.mem_filter.mp hwmem
    rw [decide_eq_true_eq] at hcw
    obtain ⟨i, hi, rfl⟩ := mem_windowsList.mp hwin
    have hne : (row.drop i).take g.toNat ≠ [] := fun hnil => by
      rw [hnil] at hcw
      exact (List.not_mem_nil c) hcw
    obtain ⟨p, hp⟩ := (winning_check_iff b _ hne).mp hcheck
    exact ⟨row, hrow, i, hi, hcw, p, hp⟩
  · rintro ⟨row, hrow, i, hi, hcw, p, hp⟩
    apply List.any_eq_true.mpr
    have hne : (row.drop i).take g.toNat ≠ [] := fun hnil => by
      rw [hnil] at hcw
      exact (List.not_mem_nil c) hcw
    refine ⟨(row.drop i).take g.toNat, ?_, ?_⟩
    · apply List.mem_flatten.mpr
      refine ⟨_, List.mem_map.mpr ⟨row, hrow, rfl⟩, ?_⟩
      exact List.mem_filter.mpr ⟨mem_windowsList.mpr ⟨i, hi, rfl⟩,
        by rw [decide_eq_true_eq]; exact hcw⟩
    · exact (winning_check_iff b _ hne).mpr ⟨p, hp⟩

/-- Witness for C1 at a concrete input: on `board3`, the move `{1,-1}`
with goal 3 is winning, via the top-row window. -/
theorem claim_C1_witness :
    (1 : Int) ≤ 3 ∧ board3.on_board ⟨1, -1⟩ = true ∧
      board3.is_winning_move ⟨1, -1⟩ 3 = some true :=
  ⟨by decide, by decide,
    (claim_C1_is_winning_move_iff_window board3 ⟨1, -1⟩ 3
      [[⟨-1, -1⟩, ⟨0, -1⟩, ⟨1, -1⟩], [⟨1, -1⟩, ⟨1, 0⟩, ⟨1, 1⟩],
       [⟨-1, 1⟩, ⟨0, 0⟩, ⟨1, -1⟩]]
      (by decide) (by decide) (by decide)).mpr
      ⟨[⟨-1, -1⟩, ⟨0, -1⟩, ⟨1, -1⟩], by decide, 0, by decide, by decide,
        Player.X, by decide⟩⟩

/-- C2 counterexample: on the valid non-square 5×3 board, with the
in-bounds coordinate `{0,0}`, `affected_rows` does not return any list
of lines at all — the `zip_eq` of the length-9 x-range with the
length-5 y-range panics (modelled as `none`). -/
theorem claim_C2_counterexample :
    board5x3.min_x ≤ board5x3.max_x ∧ board5x3.min_y ≤ board5x3.max_y ∧
    board5x3.on_board ⟨0, 0⟩ = true ∧
    board5x3.affected_rows ⟨0, 0⟩ = none := by decide

/-- C2 amended: for every board whose x-span equals its y-span (which
covers both presets) and every on-board coordinate `c`,
`affected_rows c` returns a duplicate-free list of 1 to 4 coordinate
sequences, each consisting only of on-board cells and each containing
`c`; on tic-tac-toe, the centre `{0,0}` yields exactly the 4 length-3
lines (row, column, both diagonals) and the corner `{-1,-1}` exactly 3
distinct lines. On non-square boards `affected_rows` panics in
`zip_eq` instead of returning. -/
theorem claim_C2_amended_affected_rows_shape :
    (∀ (b : Board) (c : Coordinates),
        b.max_x - b.min_x = b.max_y - b.min_y → b.on_board c = true →
        ∃ rows, b.affected_rows c = some rows ∧
          rows.Nodup ∧ 1 ≤ rows.length ∧ rows.length ≤ 4 ∧
          ∀ row ∈ rows, c ∈ row ∧
            ∀ cell ∈ row, b.on_board cell = true) ∧
    (Board.new Game.TIC_TAC_TOE).affected_rows ⟨0, 0⟩ =
      some [[⟨-1, 0⟩, ⟨0, 0⟩, ⟨1, 0⟩], [⟨0, -1⟩, ⟨0, 0⟩, ⟨0, 1⟩],
            [⟨-1, -1⟩, ⟨0, 0⟩, ⟨1, 1⟩], [⟨-1, 1⟩, ⟨0, 0⟩, ⟨1, -1⟩]] ∧
    (Board.new Game.TIC_TAC_TOE).affected_rows ⟨-1, -1⟩ =
      some [[⟨-1, -1⟩, ⟨0, -1⟩, ⟨1, -1⟩], [⟨-1, -1⟩, ⟨-1, 0⟩, ⟨-1, 1⟩],
            [⟨-1, -1⟩, ⟨0, 0⟩, ⟨1, 1⟩]] := by
  refine ⟨?_, by decide, by decide⟩
  intro b c hsq hc
  obtain ⟨raw, hraw⟩ := rawRows_isSome b c
    (by rw [Board.x_size, Board.y_size]; exact hsq)
  have haff := affected_rows_of_rawRows hraw
  obtain ⟨d1, d2, hz1, hz2, hshape⟩ := rawRows_eq_some hraw
  subst hshape
  refine ⟨_, haff, ?_⟩
  have hbounds := on_board_iff.mp hc
  have hr1 : c ∈ ((b.xs.map (fun x => (x + c.x, c.y))).map
      (fun q => Coordinates.mk q.1 q.2)).filter
      (fun cc => b.on_board cc) := by
    apply List.mem_filter.mpr
    refine ⟨?_, hc⟩
    apply List.mem_map.mpr
    refine ⟨(0 + c.x, c.y), ?_, by rw [zero_add]⟩
    apply List.mem_map.mpr
    refine ⟨0, ?_, rfl⟩
    rw [Board.xs]
    apply mem_rangeIncl.mpr
    rw [Board.x_size]
    omega
  have hmem1 : ((b.xs.map (fun x => (x + c.x, c.y))).map
      (fun q => Coordinates.mk q.1 q.2)).filter (fun cc => b.on_board cc)
      ∈ (([b.xs.map (fun x => (x + c.x, c.y)),
           b.ys.map (fun y => (c.x, y + c.y)), d1, d2].map
          (fun row => (row.map (fun q => Coordinates.mk q.1 q.2)).filter
            (fun cc => b.on_board cc))).filter
          (fun row => decide (c ∈ row))) := by
    apply List.mem_filter.mpr
    constructor
    · exact List.mem_map.mpr ⟨_, by simp, rfl⟩
    · rw [decide_eq_true_eq]
      exact hr1
  refine ⟨nodup_uniqueList _, ?_, ?_, ?_⟩
  · exact List.length_pos_of_mem (mem_uniqueList.mpr hmem1)
  · refine le_trans (length_uniqueList_le _) ?_
    refine le_trans (List.length_filter_le _ _) ?_
    simp
  · intro row hrow
    obtain ⟨hrow_map, hrow_c⟩ :=
      List.mem_filter.mp (mem_uniqueList.mp hrow)
    rw [decide_eq_true_eq] at hrow_c
    refine ⟨hrow_c, ?_⟩
    obtain ⟨r0, _, rfl⟩ := List.mem_map.mp hrow_map
    intro cell hcell
    exact List.of_mem_filter hcell

/-- Witness for C2's amended universally quantified part, instantiated
at the tic-tac-toe centre. -/
theorem claim_C2_witness :
    (Board.new Game.TIC_TAC_TOE).max_x -
        (Board.new Game.TIC_TAC_TOE).min_x =
      (Board.new Game.TIC_TAC_TOE).max_y -
        (Board.new Game.TIC_TAC_TOE).min_y ∧
    (Board.new Game.TIC_TAC_TOE).on_board ⟨0, 0⟩ = true ∧
    ∃ rows, (Board.new Game.TIC_TAC_TOE).affected_rows ⟨0, 0⟩ =
        some rows ∧
      rows.Nodup ∧ 1 ≤ rows.length ∧ rows.length ≤ 4 ∧
      ∀ row ∈ rows, (⟨0, 0⟩ : Coordinates) ∈ row ∧
        ∀ cell ∈ row, (Board.new Game.TIC_TAC_TOE).on_board cell = true :=
  ⟨by decide, by decide,
   claim_C2_amended_affected_rows_shape.1 (Board.new Game.TIC_TAC_TOE)
     ⟨0, 0⟩ (by decide) (by decide)⟩

/-- C3 counterexample, two failure modes. On the 3×1 board (bounds
`-1..1` × `0..0`, valid but non-square), `affected_rows` does not
return a value: the `zip_eq` of the length-5 x-range with the length-1
y-range panics (modelled as `none`), and `is_winning_move` panics with
it. And even on the square tic-tac-toe board, `is_winning_move` at
goal 0 panics: `slice::windows(0)` aborts on the first of the four
returned lines. -/
theorem claim_C3_counterexample :
    wideBoard.min_x ≤ wideBoard.max_x ∧
    wideBoard.min_y ≤ wideBoard.max_y ∧
    wideBoard.affected_rows ⟨0, 0⟩ = none ∧
    wideBoard.is_winning_move ⟨0, 0⟩ 3 = none ∧
    (Board.new Game.TIC_TAC_TOE).is_winning_move ⟨0, 0⟩ 0 = none := by
  decide

/-- C3 amended: on boards whose x-span equals their y-span (which
includes every square board and both presets), `affected_rows` always
returns a value, and `is_winning_move` returns a value for every
non-zero goal in the `i8` range. On non-square boards the `zip_eq` of
unequal-length offset ranges panics, and at goal 0 the
`slice::windows(0)` call panics whenever `affected_rows` yields at
least one line. -/
theorem claim_C3_amended_total_on_square_boards :
    ∀ (b : Board) (c : Coordinates), b.min_x ≤ b.max_x →
      b.min_y ≤ b.max_y → b.max_x - b.min_x = b.max_y - b.min_y →
      (∃ rows, b.affected_rows c = some rows) ∧
      ∀ g : Int, g ≠ 0 → -128 ≤ g → g ≤ 127 →
        ∃ w, b.is_winning_move c g = some w := by
  intro b c hx hy hsq
  obtain ⟨raw, hraw⟩ := rawRows_isSome b c
    (by rw [Board.x_size, Board.y_size]; exact hsq)
  have haff := affected_rows_of_rawRows hraw
  refine ⟨⟨_, haff⟩, fun g hg0 hglo hghi => ?_⟩
  have hnz : i8ToUsize g ≠ 0 := by
    unfold i8ToUsize
    split <;> omega
  have hmap := mapOrNone_eq_some_of_all
    (fun row => (windows (i8ToUsize g) row).map
      (fun ws => ws.filter (fun w => decide (c ∈ w))))
    (fun row => ((List.range (row.length + 1 - i8ToUsize g)).map
      (fun i => (row.drop i).take (i8ToUsize g))).filter
      (fun w => decide (c ∈ w)))
    (fun row => by
      show (windows (i8ToUsize g) row).map
          (fun ws => ws.filter (fun w => decide (c ∈ w))) =
        some (((List.range (row.length + 1 - i8ToUsize g)).map
          (fun i => (row.drop i).take (i8ToUsize g))).filter
          (fun w => decide (c ∈ w)))
      rw [windows_some hnz]
      rfl)
  unfold Board.is_winning_move
  rw [haff, Option.some_bind, hmap]
  exact ⟨_, rfl⟩

/-- Witness for C3's amended theorem on the square tic-tac-toe board. -/
theorem claim_C3_witness :
    ((-1 : Int) ≤ 1) ∧ ((3 : Int) ≠ 0) ∧
    (∃ rows, (Board.new Game.TIC_TAC_TOE).affected_rows ⟨7, 7⟩ =
      some rows) ∧
    ∃ w, (Board.new Game.TIC_TAC_TOE).is_winning_move ⟨7, 7⟩ 3 = some w :=
  ⟨by decide, by decide,
   (claim_C3_amended_total_on_square_boards (Board.new Game.TIC_TAC_TOE)
     ⟨7, 7⟩ (by decide) (by decide) (by decide)).1,
   (claim_C3_amended_total_on_square_boards (Board.new Game.TIC_TAC_TOE)
     ⟨7, 7⟩ (by decide) (by decide) (by decide)).2 3
     (by decide) (by decide) (by decide)⟩

/-- C10 counterexample: on the 1×3 board (valid but non-square bounds),
a query at the out-of-bounds coordinate `{5,5}` does not return the
empty list and does not return `false` — the `zip_eq` inside
`affected_rows` panics (modelled as `none`) before any filtering. -/
theorem claim_C10_counterexample :
    tallBoard.on_board ⟨5, 5⟩ = false ∧
    tallBoard.affected_rows ⟨5, 5⟩ = none ∧
    tallBoard.is_winning_move ⟨5, 5⟩ 1 = none := by decide

/-- C10 amended: on boards whose x-span equals their y-span, for every
out-of-bounds coordinate `c`, `affected_rows c` returns the empty list
(every candidate line is filtered to on-board cells and then discarded
for not containing `c`), and `is_winning_move c g` returns `false` for
every goal `g ≥ 1`. -/
theorem claim_C10_amended_out_of_bounds :
    ∀ (b : Board) (c : Coordinates),
      b.max_x - b.min_x = b.max_y - b.min_y → b.on_board c = false →
      b.affected_rows c = some [] ∧
      ∀ g : Int, 1 ≤ g → b.is_winning_move c g = some false := by
  intro b c hsq hc
  obtain ⟨raw, hraw⟩ := rawRows_isSome b c
    (by rw [Board.x_size, Board.y_size]; exact hsq)
  have haff := affected_rows_of_rawRows hraw
  have hfilter : ((raw.map (fun row =>
      (row.map (fun q => Coordinates.mk q.1 q.2)).filter
        (fun cc => b.on_board cc))).filter
      (fun row => decide (c ∈ row))) = [] := by
    apply List.filter_eq_nil_iff.mpr
    intro row hrow
    obtain ⟨r0, _, rfl⟩ := List.mem_map.mp hrow
    simp only [decide_eq_true_eq]
    intro hcm
    have honc : b.on_board c = true := List.of_mem_filter hcm
    rw [hc] at honc
    exact Bool.noConfusion honc
  rw [hfilter] at haff
  have haff2 : b.affected_rows c = some [] := haff
  refine ⟨haff2, fun g hg => ?_⟩
  unfold Board.is_winning_move
  rw [haff2]
  rfl

/-- Witness for C10's amended theorem: out-of-bounds query on the
square tic-tac-toe board. -/
theorem claim_C10_witness :
    (Board.new Game.TIC_TAC_TOE).on_board ⟨5, 5⟩ = false ∧
    (Board.new Game.TIC_TAC_TOE).affected_rows ⟨5, 5⟩ = some [] ∧
    (Board.new Game.TIC_TAC_TOE).is_winning_move ⟨5, 5⟩ 3 = some false :=
  ⟨by decide,
   (claim_C10_amended_out_of_bounds (Board.new Game.TIC_TAC_TOE) ⟨5, 5⟩
     (by decide) (by decide)).1,
   (claim_C10_amended_out_of_bounds (Board.new Game.TIC_TAC_TOE) ⟨5, 5⟩
     (by decide) (by decide)).2 3 (by decide)⟩

/-- C4: inserting a player at an in-bounds, unoccupied coordinate
succeeds and returns a new board with the same bounds, mapping `c ↦ p`,
and all other cells unchanged (the receiver is a value the caller
keeps; `insert` is a pure function of it). -/
theorem claim_C4_insert_success :
    ∀ (b : Board) (c : Coordinates) (p : Player),
      b.on_board c = true → b.contains_key c = false →
      ∃ b', b.insert c p = Except.ok b' ∧
        b'.min_x = b.min_x ∧ b'.max_x = b.max_x ∧
        b'.min_y = b.min_y ∧ b'.max_y = b.max_y ∧
        b'.get c = some p ∧
        ∀ c', c' ≠ c → b'.get c' = b.get c' := by
  intro b c p hon hcon
  refine ⟨{ b with hash := (c, p) :: b.hash }, ?_, rfl, rfl, rfl, rfl,
    ?_, ?_⟩
  · unfold Board.insert
    rw [hon, hcon]
    simp
  · unfold Board.get
    rw [List.find?_cons_of_pos _ (by simp)]
    rfl
  · intro c' hne
    unfold Board.get
    rw [List.find?_cons_of_neg]
    simp only [decide_eq_true_eq]
    exact fun h => hne h.symm

/-- Witness for C4 at a concrete input: inserting X at the centre of a
fresh tic-tac-toe board. -/
theorem claim_C4_witness :
    (Board.new Game.TIC_TAC_TOE).on_board ⟨0, 0⟩ = true ∧
    (Board.new Game.TIC_TAC_TOE).contains_key ⟨0, 0⟩ = false ∧
    ∃ b', (Board.new Game.TIC_TAC_TOE).insert ⟨0, 0⟩ Player.X =
        Except.ok b' ∧
      b'.min_x = (Board.new Game.TIC_TAC_TOE).min_x ∧
      b'.max_x = (Board.new Game.TIC_TAC_TOE).max_x ∧
      b'.min_y = (Board.new Game.TIC_TAC_TOE).min_y ∧
      b'.max_y = (Board.new Game.TIC_TAC_TOE).max_y ∧
      b'.get ⟨0, 0⟩ = some Player.X ∧
      ∀ c', c' ≠ ⟨0, 0⟩ →
        b'.get c' = (Board.new Game.TIC_TAC_TOE).get c' :=
  ⟨by decide, by decide,
   claim_C4_insert_success (Board.new Game.TIC_TAC_TOE) ⟨0, 0⟩ Player.X
     (by decide) (by decide)⟩

/-- C5 counterexample: inserting twice at the same coordinate fails the
second time, but with the error value `"AlreadyDefined"`, not the
`"AlreadyOccupied"` named by the claim. -/
theorem claim_C5_counterexample :
    ((Board.new Game.TIC_TAC_TOE).insert ⟨0, 0⟩ Player.X).bind
      (fun b => b.insert ⟨0, 0⟩ Player.O) =
        Except.error "AlreadyDefined" ∧
    "AlreadyDefined" ≠ "AlreadyOccupied" :=
  ⟨rfl, by decide⟩

/-- C5 amended: `insert` fails with the error `"OutOfBounds"` when the
coordinate is outside the bounds, and with the error
`"AlreadyDefined"` when it is in bounds but already occupied — the
second insert at the same coordinate fails for any inserting player —
and both failures are explicit `Err` values of the total function
`insert`, never a fatal abort. -/
theorem claim_C5_amended_insert_errors :
    ∀ (b : Board) (c : Coordinates) (p : Player),
      (b.on_board c = false → b.insert c p = Except.error "OutOfBounds") ∧
      (b.on_board c = true → b.contains_key c = true →
        b.insert c p = Except.error "AlreadyDefined") := by
  intro b c p
  constructor
  · intro h
    unfold Board.insert
    rw [h]
    simp
  · intro h1 h2
    unfold Board.insert
    rw [h1, h2]
    simp

/-- Witness for C5's amended theorem at concrete inputs: one
out-of-bounds insert and one second-insert-by-the-other-player. -/
theorem claim_C5_witness :
    (Board.new Game.TIC_TAC_TOE).on_board ⟨5, 5⟩ = false ∧
    (Board.new Game.TIC_TAC_TOE).insert ⟨5, 5⟩ Player.X =
      Except.error "OutOfBounds" ∧
    board1.contains_key ⟨0, 0⟩ = true ∧
    board1.insert ⟨0, 0⟩ Player.O = Except.error "AlreadyDefined" :=
  ⟨by decide,
   (claim_C5_amended_insert_errors (Board.new Game.TIC_TAC_TOE) ⟨5, 5⟩
     Player.X).1 (by decide),
   by decide,
   (claim_C5_amended_insert_errors board1 ⟨0, 0⟩ Player.O).2
     (by decide) (by decide)⟩

/-- C6: from `NextTurn(player, board)`, when the insert at `c`
succeeds yielding `new_board`, the next state is `Won player` when
`is_winning_move c goal` holds, otherwise `Draw` when `is_draw` holds,
otherwise `NextTurn(player.next, new_board)`; the win check takes
precedence over the draw check. -/
theorem claim_C6_next_turn_transition :
    ∀ (game : Game) (player : Player) (board new_board : Board)
      (c : Coordinates) (retry : Bool) (w : Bool),
      board.insert c player = Except.ok new_board →
      new_board.is_winning_move c game.goal = some w →
      next_turn game player board (Except.ok c) retry =
        some (if w then State.Won player
          else if new_board.is_draw then State.Draw
          else State.NextTurn player.next new_board) := by
  intro game player board new_board c retry w hins hwin
  unfold next_turn
  simp only [Except.bind, hins, Except.map, hwin, Option.map_some']

/-- Witness for C6 at a concrete input exhibiting the win/draw
precedence: X's ninth move both completes the top row and fills the
board, and the next state is `Won X`, not `Draw`. -/
theorem claim_C6_witness :
    board8.insert ⟨1, -1⟩ Player.X = Except.ok board9 ∧
    board9.is_winning_move ⟨1, -1⟩ Game.TIC_TAC_TOE.goal = some true ∧
    board9.is_draw = true ∧
    next_turn Game.TIC_TAC_TOE Player.X board8 (Except.ok ⟨1, -1⟩)
      false = some (State.Won Player.X) :=
  ⟨by rfl, by decide, by decide, by
    have h := claim_C6_next_turn_transition Game.TIC_TAC_TOE Player.X
      board8 board9 ⟨1, -1⟩ false true (by rfl) (by decide)
    simpa using h⟩

/-- C7: `is_draw` is true iff the number of occupied cells is at least
the total number of cells of the inclusive bounds (width × height);
the empty tic-tac-toe board is not a draw, eight of nine cells is not
a draw, all nine is a draw. -/
theorem claim_C7_is_draw_iff :
    (∀ b : Board, b.min_x ≤ b.max_x → b.min_y ≤ b.max_y →
      (b.is_draw = true ↔
        (b.max_x - b.min_x + 1) * (b.max_y - b.min_y + 1) ≤
          (b.hash.length : Int))) ∧
    (Board.new Game.TIC_TAC_TOE).is_draw = false ∧
    board8.is_draw = false ∧
    board9.is_draw = true := by
  refine ⟨?_, by decide, by decide, by decide⟩
  intro b hx hy
  unfold Board.is_draw
  rw [decide_eq_true_eq, ← Nat.cast_le (α := Int), Nat.cast_mul,
    Int.toNat_of_nonneg (by omega), Int.toNat_of_nonneg (by omega),
    show b.max_x + 1 - b.min_x = b.max_x - b.min_x + 1 by ring,
    show b.max_y + 1 - b.min_y = b.max_y - b.min_y + 1 by ring]

/-- Witness for C7's universally quantified part at the full board. -/
theorem claim_C7_witness :
    board9.min_x ≤ board9.max_x ∧ board9.min_y ≤ board9.max_y ∧
      board9.is_draw = true :=
  ⟨by decide, by decide,
   (claim_C7_is_draw_iff.1 board9 (by decide) (by decide)).mpr
     (by decide)⟩

/-- C9: every board reachable from `Board::new` by successful inserts
has only in-bounds keys in its mapping, and at most one player per
coordinate (the key list is duplicate-free). -/
theorem claim_C9_reachable_invariant :
    ∀ b : Board, Reachable b →
      (∀ kv ∈ b.hash, b.on_board kv.1 = true) ∧
      (b.hash.map Prod.fst).Nodup := by
  intro b hb
  induction hb with
  | new game => simp [Board.new]
  | insert b0 b' c p hb0 hok ih =>
    unfold Board.insert at hok
    by_cases h1 : b0.on_board c = false
    · rw [if_pos h1] at hok
      exact Except.noConfusion hok
    · rw [if_neg h1] at hok
      by_cases h2 : b0.contains_key c = true
      · rw [if_pos h2] at hok
        exact Except.noConfusion hok
      · rw [if_neg h2] at hok
        injection hok with hok'
        subst hok'
        have h1' : b0.on_board c = true := by
          cases hv : b0.on_board c
          · exact absurd hv h1
          · rfl
        constructor
        · intro kv hkv
          rcases List.mem_cons.mp hkv with rfl | hkv'
          · exact h1'
          · exact ih.1 kv hkv'
        · rw [List.map_cons, List.nodup_cons]
          refine ⟨?_, ih.2⟩
          intro hmem
          obtain ⟨kv, hkv, heq⟩ := List.mem_map.mp hmem
          have h2' : b0.contains_key c = false := by
            cases hv : b0.contains_key c
            · rfl
            · exact absurd hv h2
          have := List.any_eq_false.mp h2' kv hkv
          rw [decide_eq_true_eq] at this
          exact this heq

/-- Witness for C9 at a concrete reachable board: the centre insert on
a fresh tic-tac-toe board. -/
theorem claim_C9_witness :
    (∀ kv ∈ board1.hash, board1.on_board kv.1 = true) ∧
      (board1.hash.map Prod.fst).Nodup :=
  claim_C9_reachable_invariant board1
    (Reachable.insert (Board.new Game.TIC_TAC_TOE) board1 ⟨0, 0⟩
      Player.X (Reachable.new Game.TIC_TAC_TOE) (by rfl))

/-- C8: parsing a string as `Coordinates` fails unless the string is
exactly an optionally-minus-signed digit run, a comma, and a second
optionally-minus-signed digit run, with no extra characters; on success
the result carries the two signed integer values. `"-1,-1"` parses to
`{x:-1, y:-1}`; `"1,"` and `"a,b"` fail. -/
theorem claim_C8_from_str_parse :
    (∀ (s : List Char) (x y : Int),
        Coordinates.from_str s = Except.ok ⟨x, y⟩ →
        ∃ a b, SignedShape a x ∧ SignedShape b y ∧ s = a ++ ',' :: b) ∧
    (∀ s : List Char,
        (¬ ∃ a b x y, SignedShape a x ∧ SignedShape b y ∧
          s = a ++ ',' :: b) →
        ∃ e, Coordinates.from_str s = Except.error e) ∧
    Coordinates.from_str ['-', '1', ',', '-', '1'] =
      Except.ok ⟨-1, -1⟩ ∧
    Coordinates.from_str ['1', ','] =
      Except.error "Coordinates can\x27t be parsed" ∧
    Coordinates.from_str ['a', ',', 'b'] =
      Except.error "Coordinates can\x27t be parsed" :=
  ⟨fun _ _ _ h => from_str_ok_shape h,
   fun _ h => from_str_error_of_not_shape h, rfl, rfl, rfl⟩

/-- Witness for C8's quantified part at the concrete input `"-1,-1"`. -/
theorem claim_C8_witness :
    ∃ a b, SignedShape a (-1) ∧ SignedShape b (-1) ∧
      ['-', '1', ',', '-', '1'] = a ++ ',' :: b :=
  claim_C8_from_str_parse.1 ['-', '1', ',', '-', '1'] (-1) (-1) rfl

end TicTacToe
